import Mathlib

/-!
Shallow embedding of the `readabilityrs` article-extraction library.

The HTML/DOM engine (`scraper`), the JSON parser (`serde_json`) and the regex
engine are external collaborators; documents are therefore modelled at the
boundary the source code observes: lists of `<meta>`-element attribute triples,
parsed JSON values of `<script type="application/ld+json">` blocks, and the
results of the DOM-walking extractors.  String functions from the repository's
`utils` module (which is not present under `src/`) are modelled from the spec
and are marked as such in their doc comments.  Rust `char` predicates
(`is_whitespace`, `is_alphabetic`, `is_uppercase`, `to_lowercase`) are modelled
by their ASCII restrictions, which is exact on every input considered here.
-/

namespace Readabilityrs

/-! ### String helpers modelling Rust std string operations -/

/-- Rust `char::to_ascii_lowercase`. -/
def asciiLower (c : Char) : Char :=
  if 'A' ≤ c ∧ c ≤ 'Z' then Char.ofNat (c.toNat + 32) else c

/-- Lowercase every character of a string (ASCII model of `str::to_lowercase`). -/
def strLower (s : String) : String :=
  String.mk (s.toList.map asciiLower)

/-- Rust `str::eq_ignore_ascii_case`. -/
def eqIgnoreAsciiCase (a b : String) : Bool :=
  strLower a == strLower b

/-- Helper for `splitWhitespace`: accumulates the current word (reversed). -/
def splitWsAux : List Char → List Char → List (List Char)
  | [], acc => if acc.isEmpty then [] else [acc.reverse]
  | c :: rest, acc =>
    if c.isWhitespace then
      if acc.isEmpty then splitWsAux rest [] else acc.reverse :: splitWsAux rest []
    else splitWsAux rest (c :: acc)

/-- Rust `str::split_whitespace`: maximal runs of non-whitespace characters. -/
def splitWhitespace (s : String) : List String :=
  (splitWsAux s.toList []).map String.mk

/-- Rust `str::trim` (whitespace from both ends), implemented structurally so
that concrete instances reduce inside the kernel. -/
def strTrim (s : String) : String :=
  String.mk (((s.toList.dropWhile Char.isWhitespace).reverse.dropWhile
    Char.isWhitespace).reverse)

/-- Rust `str::starts_with`. -/
def strStartsWith (s p : String) : Bool :=
  s.toList.take p.toList.length == p.toList

/-- Rust `str::split("\n\n")`, the paragraph split of
`generate_excerpt_from_text`, implemented structurally. -/
def paraSplit : List Char → List Char → List (List Char)
  | [], acc => [acc.reverse]
  | [c], acc => [(c :: acc).reverse]
  | c1 :: c2 :: rest, acc =>
    if c1 == '\n' && c2 == '\n' then acc.reverse :: paraSplit rest []
    else paraSplit (c2 :: rest) (c1 :: acc)

/-- Collapse whitespace runs to single spaces and trim (a recurring idiom:
`s.split_whitespace().collect::<Vec<_>>().join(" ")`). -/
def collapseWs (s : String) : String :=
  String.intercalate " " (splitWhitespace s)

/-- Rust `str::contains(substring)` on character lists. -/
def containsSub (needle : List Char) : List Char → Bool
  | [] => needle.isEmpty
  | l@(_ :: rest) => (l.take needle.length == needle) || containsSub needle rest

/-- Rust `str::find(substring)`: index of the first occurrence. -/
def findSubIdx (needle : List Char) : List Char → Option Nat
  | [] => if needle.isEmpty then some 0 else none
  | l@(_ :: rest) =>
    if l.take needle.length == needle then some 0
    else (findSubIdx needle rest).map (· + 1)

/-- Rust `str::trim_matches(|c| !c.is_alphanumeric())`: strip non-alphanumeric
characters from both ends. -/
def trimNonAlnum (s : String) : String :=
  String.mk
    (((s.toList.dropWhile (fun c => ¬ c.isAlphanum)).reverse.dropWhile
        (fun c => ¬ c.isAlphanum)).reverse)

/-! ### Models of the missing `utils` module (not present under `src/`) -/

/-- Modelled from the spec: `utils::is_url` accepts a syntactically valid
absolute URL (http/https scheme, nonempty remainder, no whitespace); the spec
only requires that construction "fails with `InvalidUrl` if `base_url` is
present but not a syntactically valid URL". -/
def is_url (s : String) : Bool :=
  (strStartsWith s "http://" || strStartsWith s "https://")
    && !(s.toList.any Char.isWhitespace)
    && decide (s.length > (if strStartsWith s "https://" then 8 else 7))

/-- Modelled from the spec: `utils::looks_like_org_credit` detects a
wire-service/organization credit (e.g. the agency credit "AFP" that the spec
says a DOM byline overrides). -/
def looks_like_org_credit (s : String) : Bool :=
  (["AFP", "AP", "REUTERS", "Reuters", "BLOOMBERG", "Bloomberg",
    "ASSOCIATED PRESS", "Associated Press", "AGENCE FRANCE-PRESSE",
    "UPI", "DPA", "EFE", "PTI", "IANS", "ANSA", "AAP"] : List String).contains (strTrim s)

/-- Modelled from the spec: `utils::looks_like_dateline` detects a dateline
such as "CAIRO —": a single all-uppercase word of at least three letters,
optionally followed by a trailing dash/colon separator. -/
def looks_like_dateline (s : String) : Bool :=
  let core : List Char :=
    ((strTrim s).toList.reverse.dropWhile
      (fun c => c == '—' || c == '–' || c == '-' || c == ':' || c.isWhitespace)).reverse
  !core.isEmpty
    && core.all (fun c => ¬ c.isWhitespace)
    && decide ((core.filter Char.isAlpha).length ≥ 3)
    && (core.filter Char.isAlpha).all Char.isUpper

/-- Modelled from the spec: `utils::clean_byline_text` collapses whitespace
runs and trims, returning `none` for an empty result.  (The leading "By" is
retained: the repository's own tests expect bylines like "By Erin Cunningham"
to survive cleaning.) -/
def clean_byline_text (s : String) : Option String :=
  let t := collapseWs s
  if t.isEmpty then none else some t

/-- Modelled from the spec: `utils::unescape_html_entities` decodes the five
standard HTML entities and leaves all other text unchanged. -/
def unescapeAux : List Char → List Char
  | [] => []
  | '&' :: 'a' :: 'm' :: 'p' :: ';' :: rest => '&' :: unescapeAux rest
  | '&' :: 'l' :: 't' :: ';' :: rest => '<' :: unescapeAux rest
  | '&' :: 'g' :: 't' :: ';' :: rest => '>' :: unescapeAux rest
  | '&' :: 'q' :: 'u' :: 'o' :: 't' :: ';' :: rest => '"' :: unescapeAux rest
  | '&' :: '#' :: '3' :: '9' :: ';' :: rest => Char.ofNat 39 :: unescapeAux rest
  | c :: rest => c :: unescapeAux rest

/-- Modelled from the spec: see `unescapeAux`. -/
def unescape_html_entities (s : String) : String :=
  String.mk (unescapeAux s.toList)

/-- Modelled from the spec: `utils::looks_like_bracket_menu` detects menu-like
text made of bracketed items (three or more opening brackets). -/
def looks_like_bracket_menu (s : String) : Bool :=
  decide ((s.toList.filter (· == '[')).length ≥ 3)

/-- Modelled from the spec: `utils::is_byline_redundant_with_site_name` holds
when the byline is textually redundant with the resolved site name, i.e. the
site name contains the byline after case folding and whitespace collapsing
(the spec's example: site name "SIMPLYFOUND.COM | BY: Joe Wee" makes the
byline "Joe Wee" redundant). -/
def is_byline_redundant_with_site_name (byline site : String) : Bool :=
  containsSub (collapseWs (strLower byline)).toList (collapseWs (strLower site)).toList

/-! ### `metadata.rs`: byline confidence and override predicates -/

/-- Confidence tier of a DOM-derived byline candidate (`DomBylineConfidence`). -/
inductive DomBylineConfidence where
  | High
  | Medium
  | Low
deriving DecidableEq, Repr

/-- A DOM-derived byline candidate (`DomBylineCandidate`). -/
structure DomBylineCandidate where
  text : String
  confidence : DomBylineConfidence
deriving DecidableEq, Repr

/-- `contains_caps_noise_token` from `metadata.rs`: some whitespace token,
stripped of non-alphanumeric edges and lowercased, is a noise word. -/
def contains_caps_noise_token (text : String) : Bool :=
  (splitWhitespace text).any (fun tok =>
    let cleaned := strLower (trimNonAlnum tok)
    !cleaned.isEmpty
      && (["views", "view", "votes", "vote", "post", "posts", "yes", "no", "hot",
           "stats", "trending", "share", "sections"] : List String).contains cleaned)

/-- `looks_like_caps_author` from `metadata.rs`: a multi-word string of at
least three letters, at least 80% of them uppercase, with no noise token. -/
def looks_like_caps_author (text : String) : Bool :=
  let trimmed := strTrim text
  if trimmed.isEmpty || !(trimmed.toList.any Char.isWhitespace) then false
  else
    let letters := trimmed.toList.filter Char.isAlpha
    if letters.length < 3 then false
    else if contains_caps_noise_token trimmed then false
    else decide ((letters.filter Char.isUpper).length * 10 ≥ letters.length * 8)

/-- The months table `MONTH_KEYWORDS` from `metadata.rs`. -/
def MONTH_KEYWORDS : List String :=
  ["jan", "january", "feb", "february", "mar", "march", "apr", "april", "may",
   "jun", "june", "jul", "july", "aug", "august", "sep", "sept", "september",
   "oct", "october", "nov", "november", "dec", "december"]

/-- The punctuation characters that `should_prefer_dom_byline` replaces by
spaces in the leftover text. -/
def bylineSepChars : List Char :=
  ['|', '-', '_', ',', '.', '–', '—', '(', ')', '[', ']',
   Char.ofNat 123, Char.ofNat 125, '"', Char.ofNat 39]

/-- `should_prefer_dom_byline` from `metadata.rs`: decides whether a
DOM-derived byline replaces the already-resolved one. -/
def should_prefer_dom_byline (existing dom : String)
    (confidence : DomBylineConfidence) : Bool :=
  let existing_clean := strTrim existing
  let dom_clean := strTrim dom
  if eqIgnoreAsciiCase dom_clean existing_clean then false
  else if looks_like_org_credit existing_clean && !looks_like_org_credit dom_clean then
    true
  else if looks_like_dateline existing_clean && !looks_like_dateline dom_clean then
    true
  else if decide (confidence = DomBylineConfidence.High)
      && looks_like_caps_author dom_clean
      && !looks_like_caps_author existing_clean then
    true
  else
    let existing_lower := strLower existing_clean
    let dom_lower := strLower dom_clean
    let dom_collapsed := collapseWs dom_lower
    let existing_collapsed := collapseWs existing_lower
    if !containsSub existing_collapsed.toList dom_collapsed.toList then false
    else
      let remainder0 : List Char :=
        match findSubIdx existing_lower.toList dom_lower.toList with
        | some idx =>
          dom_lower.toList.take idx
            ++ dom_lower.toList.drop (idx + existing_lower.toList.length)
        | none => dom_lower.toList
      let remainder1 := remainder0.map (fun c => if bylineSepChars.contains c then ' ' else c)
      let tokens0 := (splitWsAux remainder1 []).map String.mk
      if tokens0.isEmpty then false
      else
        let tokens := tokens0.filter (fun tok =>
          !tok.isEmpty
            && !(tok.toList.all Char.isDigit)
            && !((["by", "updated", "at", "am", "pm"] : List String).contains tok)
            && !MONTH_KEYWORDS.contains tok)
        !tokens.isEmpty

/-- `should_prefer_caps_standfirst` from `metadata.rs`. -/
def should_prefer_caps_standfirst (existing candidate : String) : Bool :=
  let existing_clean := strTrim existing
  let candidate_clean := strTrim candidate
  if eqIgnoreAsciiCase candidate_clean existing_clean then false
  else if looks_like_caps_author existing_clean then false
  else looks_like_caps_author candidate_clean

/-! ### `metadata.rs`: the meta-tag key/value table

The source scans every `<meta>` element of the document (in document order) and
matches its `property`/`name` attributes against two regexes.  A `<meta>`
element is modelled by its three relevant attributes; the two regexes are
translated into executable matchers with the regex crate's leftmost-first
alternation semantics. -/

/-- The attributes of one `<meta>` element, in document order. -/
structure MetaElem where
  name : Option String
  property : Option String
  content : Option String
deriving DecidableEq, Repr

/-- Skip a run of whitespace (the `\s*` pieces of the two meta regexes). -/
def skipWs (s : List Char) : List Char := s.dropWhile Char.isWhitespace

/-- Match each of the given lowercase literal alternatives case-insensitively
at the head of `s`; returns the surviving `(alternative, rest)` pairs in the
alternation's preference order, so that a caller can backtrack. -/
def matchAlts (alts : List String) (s : List Char) : List (String × List Char) :=
  alts.filterMap (fun a =>
    let al := a.toList
    if (s.take al.length).map asciiLower == al then some (a, s.drop al.length) else none)

/-- The namespace alternatives of `property_pattern` in `get_article_metadata`:
`(article|dc|dcterm|og|twitter)`. -/
def propNamespaces : List String := ["article", "dc", "dcterm", "og", "twitter"]

/-- The field alternatives of `property_pattern`:
`(author|creator|description|published_time|title|site_name)`. -/
def propFields : List String :=
  ["author", "creator", "description", "published_time", "title", "site_name"]

/-- Attempt `property_pattern` at one start position: `\s* namespace \s* : \s*
field \s*`.  On success, return the key, i.e. the matched text lowercased with
whitespace removed (which is exactly `namespace ++ ":" ++ field`). -/
def propMatchAt (s : List Char) : Option String :=
  (matchAlts propNamespaces (skipWs s)).findSome? (fun pr =>
    match skipWs pr.2 with
    | c :: rest =>
      if c == ':' then
        ((matchAlts propFields (skipWs rest)).head?).map (fun fr => pr.1 ++ ":" ++ fr.1)
      else none
    | [] => none)

/-- `Regex::find` semantics for `property_pattern`: the leftmost start position
at which the pattern matches. -/
def propScan : List Char → Option String
  | [] => none
  | l@(_ :: rest) =>
    match propMatchAt l with
    | some k => some k
    | none => propScan rest

/-- The key produced by one whitespace-split token of a `property` attribute,
as in the `property_pattern.find(prop)` branch of `get_article_metadata`. -/
def propertyKeyOfToken (tok : String) : Option String :=
  propScan tok.toList

/-- The prefix alternatives of `name_pattern`:
`(article|dc|dcterm|og|twitter|parsely|weibo:(article|webpage))`. -/
def nameNamespaces : List String :=
  ["article", "dc", "dcterm", "og", "twitter", "parsely", "weibo:article", "weibo:webpage"]

/-- The field alternatives of `name_pattern`:
`(author|author_name|creator|pub-date|description|title|site_name)`. -/
def nameFields : List String :=
  ["author", "author_name", "creator", "pub-date", "description", "title", "site_name"]

/-- Match one of `name_pattern`'s field alternatives followed by `\s*$`
(with backtracking over the alternatives). -/
def nameFieldAndEnd (s : List Char) : Bool :=
  (matchAlts nameFields s).any (fun fr => (skipWs fr.2).isEmpty)

/-- `name_pattern.is_match(name)`: the anchored regex
`^\s*(?:namespace\s*[-.:]\s*)?field\s*$`, with the optional namespace group
tried both ways. -/
def name_pattern_matches (name : String) : Bool :=
  let s1 := skipWs name.toList
  ((matchAlts nameNamespaces s1).any (fun pr =>
      match skipWs pr.2 with
      | c :: rest =>
        (c == '-' || c == '.' || c == ':') && nameFieldAndEnd (skipWs rest)
      | [] => false))
    || nameFieldAndEnd s1

/-- The key normalization applied in the `name` branch of
`get_article_metadata`: lowercase, remove whitespace, replace `.` by `:`. -/
def normalizeName (name : String) : String :=
  String.mk (name.toList.filterMap (fun c =>
    if c.isWhitespace then none
    else if c == '.' then some ':' else some (asciiLower c)))

/-- The key-to-value table is observed only through `HashMap::get`; it is
modelled as a lookup function. -/
def MetaTable : Type := String → Option String

/-- `HashMap::insert`: later inserts replace earlier values for the same key. -/
def tableInsert (m : MetaTable) (k v : String) : MetaTable :=
  fun q => if q = k then some v else m q

/-- The empty table. -/
def emptyTable : MetaTable := fun _ => none

/-- One iteration over a whitespace-split `property` token: insert on a
regex match (recording, via the boolean, that `matched_name` was set). -/
def propFoldStep (content : String) (acc : MetaTable × Bool) (tok : String) :
    MetaTable × Bool :=
  match propertyKeyOfToken tok with
  | some key => (tableInsert acc.1 key (strTrim content), true)
  | none => acc

/-- Process one `<meta>` element exactly as the loop body of
`get_article_metadata` does: try every whitespace-split token of the
`property` attribute, and fall back to the `name` attribute only when no
property token matched. -/
def processMeta (values : MetaTable) (m : MetaElem) : MetaTable :=
  match m.content with
  | none => values
  | some content =>
    if content.isEmpty then values
    else
      let step : MetaTable × Bool :=
        match m.property with
        | some property =>
          (splitWhitespace property).foldl (propFoldStep content) (values, false)
        | none => (values, false)
      if step.2 then step.1
      else
        match m.name with
        | some nm =>
          if name_pattern_matches nm then tableInsert step.1 (normalizeName nm) (strTrim content)
          else step.1
        | none => step.1

/-- The flat key-to-value table built from the document's `<meta>` elements in
document order (`get_article_metadata`, first loop). -/
def buildMetaValues (metas : List MetaElem) : MetaTable :=
  metas.foldl processMeta emptyTable

/-- The ordered `(key, value)` insertions a `property` attribute triggers. -/
def propInsertions (content : String) (toks : List String) : List (String × String) :=
  toks.filterMap (fun tok => (propertyKeyOfToken tok).map (fun k => (k, strTrim content)))

/-- The ordered list of `(key, value)` insertions one `<meta>` element
performs (used to state which element's value a key ends up holding). -/
def insertionsOf (m : MetaElem) : List (String × String) :=
  match m.content with
  | none => []
  | some content =>
    if content.isEmpty then []
    else
      let propIns :=
        match m.property with
        | some property => propInsertions content (splitWhitespace property)
        | none => []
      if !propIns.isEmpty then propIns
      else
        match m.name with
        | some nm =>
          if name_pattern_matches nm then [(normalizeName nm, strTrim content)] else []
        | none => []

/-- Following the words of the spec for the meta table: "first-match-wins per
key" — the value of the first element (in document order) that produces the
key. -/
def metaTableFirstMatch (metas : List MetaElem) (k : String) : Option String :=
  ((metas.flatMap insertionsOf).find? (fun p => p.1 == k)).map (·.2)

/-- The insertion-order semantics the code actually has: the value of the last
element (in document order) that produces the key. -/
def metaTableLastMatch (metas : List MetaElem) (k : String) : Option String :=
  (((metas.flatMap insertionsOf).reverse).find? (fun p => p.1 == k)).map (·.2)

/-! ### `metadata.rs`: JSON-LD structured-data extraction

`serde_json` is an external collaborator: a `<script type="application/ld+json">`
block is modelled by its parse result — `none` when `serde_json::from_str`
fails (the code skips the block), `some v` otherwise. -/

/-- A parsed JSON value (the fragment of `serde_json::Value` the code uses). -/
inductive Json where
  | null
  | bool (b : Bool)
  | num (q : ℚ)
  | str (s : String)
  | arr (items : List Json)
  | obj (fields : List (String × Json))

/-- `Value::get(key)` on an object (`None` on any other variant). -/
def Json.get : Json → String → Option Json
  | .obj fields, k => (fields.find? (fun f => f.1 == k)).map (·.2)
  | _, _ => none

/-- `Value::as_str`. -/
def Json.asStr : Json → Option String
  | .str s => some s
  | _ => none

/-- `Value::as_array`. -/
def Json.asArr : Json → Option (List Json)
  | .arr xs => some xs
  | _ => none

/-- `Value::as_object` restricted to what the code needs: whether the value is
an object. -/
def Json.isObj : Json → Bool
  | .obj _ => true
  | _ => false

/-- The metadata record (`Metadata` in `metadata.rs`). -/
structure Metadata where
  title : Option String := none
  byline : Option String := none
  excerpt : Option String := none
  site_name : Option String := none
  published_time : Option String := none
  lang : Option String := none
deriving DecidableEq, Repr

/-- Modelled from the spec: `REGEXPS.json_ld_article_types` lives in the
missing `constants` module; the spec asks for article-like schema.org types
"supporting a type hierarchy, e.g. NewsArticle/BlogPosting under Article". -/
def json_ld_article_types (s : String) : Bool :=
  (["Article", "AdvertiserContentArticle", "NewsArticle", "AnalysisNewsArticle",
    "AskPublicNewsArticle", "BackgroundNewsArticle", "OpinionNewsArticle",
    "ReportageNewsArticle", "ReviewNewsArticle", "Report", "SatiricalArticle",
    "ScholarlyArticle", "MedicalScholarlyArticle", "SocialMediaPosting",
    "BlogPosting", "LiveBlogPosting", "DiscussionForumPosting", "TechArticle",
    "APIReference"] : List String).contains s

/-- The schema-context check `^https?://schema\.org/?$` from `get_json_ld`. -/
def schema_url_matches (s : String) : Bool :=
  (["http://schema.org", "https://schema.org",
    "http://schema.org/", "https://schema.org/"] : List String).contains s

/-- Whether a JSON item carries an article-like string `@type` (the closure
used twice in `get_json_ld`, over top-level arrays and over `@graph`). -/
def item_is_article_typed (item : Json) : Bool :=
  match (item.get "@type").bind Json.asStr with
  | some t => json_ld_article_types t
  | none => false

/-- The `@context` validation of `get_json_ld`: a string context matching the
schema.org regex, or an object context whose `@vocab` string matches it. -/
def has_schema_context (parsed : Json) : Bool :=
  match parsed.get "@context" with
  | some ctx =>
    match ctx.asStr with
    | some s => schema_url_matches s
    | none =>
      if ctx.isObj then
        match (ctx.get "@vocab").bind Json.asStr with
        | some v => schema_url_matches v
        | none => false
      else false
  | none => false

/-- The title selection of `get_json_ld` (lines 109-133 of `metadata.rs`):
"name" can be the article title or the publisher name; if it collides with the
publisher's name, use "headline" instead. -/
def jsonLdTitleUpdate (prev : Option String)
    (name headline publisherName : Option String) : Option String :=
  if prev.isSome then prev
  else
    match name, publisherName with
    | some n, some p =>
      if strTrim n = strTrim p then
        match headline with
        | some h => some (strTrim h)
        | none => prev
      else some (strTrim n)
    | _, _ =>
      match name with
      | some n => some (strTrim n)
      | none =>
        match headline with
        | some h => some (strTrim h)
        | none => prev

/-- The byline selection of `get_json_ld`: a single `author.name`, or the
comma-joined names of an author array. -/
def jsonLdBylineUpdate (prev : Option String) (author : Option Json) : Option String :=
  if prev.isSome then prev
  else
    match author with
    | none => prev
    | some a =>
      match (a.get "name").bind Json.asStr with
      | some nm => some (strTrim nm)
      | none =>
        match a.asArr with
        | some authors =>
          let names := authors.filterMap (fun x =>
            ((x.get "name").bind Json.asStr).map strTrim)
          if names.isEmpty then prev else some (String.intercalate ", " names)
        | none => prev

/-- One iteration of `get_json_ld`'s script loop over a parsed block. -/
def jsonLdStep (md : Metadata) (script : Option Json) : Metadata :=
  match script with
  | none => md
  | some parsed0 =>
    let parsed1? : Option Json :=
      match parsed0.asArr with
      | some xs => xs.find? item_is_article_typed
      | none => some parsed0
    match parsed1? with
    | none => md
    | some p1 =>
      if !has_schema_context p1 then md
      else
        let p2 :=
          if (p1.get "@type").isNone then
            match (p1.get "@graph").bind Json.asArr with
            | some g => (g.find? item_is_article_typed).getD p1
            | none => p1
          else p1
        let typeOk :=
          match p2.get "@type" with
          | some tv =>
            match tv.asStr with
            | some ts => json_ld_article_types ts
            | none => false
          | none => false
        if !typeOk then md
        else
          let name := (p2.get "name").bind Json.asStr
          let headline := (p2.get "headline").bind Json.asStr
          let publisherName :=
            ((p2.get "publisher").bind (fun p => p.get "name")).bind Json.asStr
          { title := jsonLdTitleUpdate md.title name headline publisherName
            byline := jsonLdBylineUpdate md.byline (p2.get "author")
            excerpt :=
              if md.excerpt.isNone then
                match (p2.get "description").bind Json.asStr with
                | some d => some (strTrim d)
                | none => md.excerpt
              else md.excerpt
            site_name :=
              if md.site_name.isNone then
                match publisherName with
                | some pn => some (strTrim pn)
                | none => md.site_name
              else md.site_name
            published_time :=
              if md.published_time.isNone then
                match (p2.get "datePublished").bind Json.asStr with
                | some d => some (strTrim d)
                | none => md.published_time
              else md.published_time
            lang := md.lang }

/-- `get_json_ld` from `metadata.rs`, over the document's parsed
`application/ld+json` script blocks in document order. -/
def get_json_ld (scripts : List (Option Json)) : Metadata :=
  scripts.foldl jsonLdStep {}

/-! ### `metadata.rs`: metadata fusion (`get_article_metadata`)

The document is modelled at the boundary the fusion code observes: its
`<meta>` elements, its parsed JSON-LD blocks, and the results of the four
DOM-walking extractors of `metadata.rs` (which run selector queries against
the external `scraper` engine): `extract_byline_from_document`,
`extract_standfirst_caps_byline`, `extract_title_from_document` and
`extract_language_from_document`. -/

/-- A document, as observed by `get_article_metadata` and `parse`. -/
structure DocModel where
  /-- The `<meta>` elements, in document order. -/
  metas : List MetaElem
  /-- The parsed `application/ld+json` blocks, in document order (`none` for a
  block `serde_json` fails to parse). -/
  ldScripts : List (Option Json)
  /-- The result of `extract_byline_from_document`. -/
  domByline : Option DomBylineCandidate
  /-- The result of `extract_standfirst_caps_byline`. -/
  capsStandfirst : Option String
  /-- The result of `extract_title_from_document` (the `<title>`-tag
  heuristic). -/
  docTitle : Option String
  /-- The result of `extract_language_from_document`. -/
  lang : Option String

/-- The title resolved from meta-tag sources, in the priority order of
`get_article_metadata`. -/
def resolve_meta_title (values : MetaTable) (json_ld : Metadata) : Option String :=
  json_ld.title <|> (values "dc:title" <|> values "dcterm:title" <|> values "og:title"
    <|> values "weibo:article:title" <|> values "weibo:webpage:title"
    <|> values "title" <|> values "twitter:title" <|> values "parsely-title")

/-- The `article:author` / `article:author_name` candidate, dropped when it is
a URL. -/
def resolve_article_author (values : MetaTable) : Option String :=
  (values "article:author" <|> values "article:author_name").filter (fun v => !is_url v)

/-- The byline resolved from structured-data and meta-tag sources (before any
DOM-byline fusion), in the priority order of `get_article_metadata`. -/
def resolve_meta_byline (values : MetaTable) (json_ld : Metadata) : Option String :=
  json_ld.byline <|> (values "dc:creator" <|> values "dcterm:creator"
    <|> values "author" <|> values "parsely-author" <|> resolve_article_author values)

/-- The excerpt resolved from structured-data and meta-tag sources. -/
def resolve_meta_excerpt (values : MetaTable) (json_ld : Metadata) : Option String :=
  json_ld.excerpt <|> (values "dc:description" <|> values "dcterm:description"
    <|> values "og:description" <|> values "weibo:article:description"
    <|> values "weibo:webpage:description" <|> values "description"
    <|> values "twitter:description")

/-- The post-processing `get_article_metadata` applies to the excerpt after
entity unescaping: drop it when trimmed-empty or menu-like. -/
def excerpt_postprocess (e : String) : Option String :=
  let trimmed := strTrim e
  if trimmed.isEmpty then none
  else if looks_like_bracket_menu trimmed then none
  else some e

/-- The first DOM-byline fusion of `get_article_metadata` (lines 269-279),
applied to the raw resolved byline. -/
def fuse_dom_byline_raw (metaByline : Option String)
    (domByline : Option DomBylineCandidate) : Option String :=
  match domByline with
  | some dv =>
    match metaByline with
    | some existing =>
      if should_prefer_dom_byline existing dv.text dv.confidence then some dv.text
      else metaByline
    | none => some dv.text
  | none => metaByline

/-- The second DOM-byline fusion of `get_article_metadata` (lines 330-335),
applied after unescaping and cleaning. -/
def fuse_dom_byline_cleaned (byline : Option String)
    (domByline : Option DomBylineCandidate) : Option String :=
  match byline, domByline with
  | some existing, some dv =>
    if should_prefer_dom_byline existing dv.text dv.confidence then
      clean_byline_text dv.text <|> some dv.text
    else byline
  | _, _ => byline

/-- The standfirst caps-byline fusion of `get_article_metadata`
(lines 346-355). -/
def fuse_caps_standfirst (byline : Option String)
    (capsCandidate : Option String) : Option String :=
  match capsCandidate with
  | some caps =>
    match byline with
    | some existing =>
      if should_prefer_caps_standfirst existing caps then some caps else byline
    | none => some caps
  | none => byline

/-- Everything `get_article_metadata` computes before the site-name redundancy
check (lines 180-355 of `metadata.rs`). -/
def resolve_metadata_core (doc : DocModel) (json_ld : Metadata) : Metadata :=
  let values := buildMetaValues doc.metas
  let title0 := resolve_meta_title values json_ld
  let title1 := title0 <|> doc.docTitle
  let title2 := title1 <|> some ""
  let dom_byline := doc.domByline
  let meta_byline := resolve_meta_byline values json_ld
  let meta_byline := fuse_dom_byline_raw meta_byline dom_byline
  let excerpt0 := resolve_meta_excerpt values json_ld
  let site0 := json_ld.site_name <|> values "og:site_name"
  let published0 := json_ld.published_time
    <|> (values "article:published_time" <|> values "parsely-pub-date")
  let title := title2.map unescape_html_entities
  let byline :=
    (meta_byline.map unescape_html_entities).bind clean_byline_text
  let excerpt := (excerpt0.map unescape_html_entities).bind excerpt_postprocess
  let site := site0.map unescape_html_entities
  let byline := fuse_dom_byline_cleaned byline dom_byline
  let byline := fuse_caps_standfirst byline doc.capsStandfirst
  { title := title
    byline := byline
    excerpt := excerpt
    site_name := site
    published_time := published0
    lang := doc.lang }

/-- The site-name redundancy suppression of `get_article_metadata`
(lines 357-361): a byline redundant with the site name is dropped. -/
def apply_site_redundancy (md : Metadata) : Metadata :=
  match md.byline, md.site_name with
  | some b, some s =>
    if is_byline_redundant_with_site_name b s then { md with byline := none } else md
  | _, _ => md

/-- `get_article_metadata` from `metadata.rs`. -/
def get_article_metadata (doc : DocModel) (json_ld : Metadata) : Metadata :=
  let md := apply_site_redundancy (resolve_metadata_core doc json_ld)
  { md with published_time := md.published_time.map unescape_html_entities }

/-! ### `readerable.rs`: the pre-flight check

`f64` arithmetic is idealized over the real numbers; the square roots and
comparisons appearing in the claims below are exact in both models.  The
document is modelled by the trimmed text lengths (in bytes, as
`text.trim().len()` computes) of its selected `p, pre, article` elements, in
document order. -/

/-- Options for the pre-flight check (`ReaderableOptions`). -/
structure ReaderableOptions where
  min_content_length : ℕ
  min_score : ℝ

/-- The defaults of `ReaderableOptions` (140 characters, score 20.0). -/
noncomputable def defaultReaderableOptions : ReaderableOptions :=
  { min_content_length := 140, min_score := 20 }

/-- The scoring loop of `is_probably_readerable`: skip short blocks, add
`sqrt(text_len - min_content_length)` per qualifying block, return true as
soon as the running score exceeds `min_score`. -/
def readerableLoop (minLen : ℕ) (minScore : ℝ) : List ℕ → ℝ → Prop
  | [], _ => False
  | len :: rest, score =>
    if len < minLen then readerableLoop minLen minScore rest score
    else
      (minScore < score + Real.sqrt ((len - minLen : ℕ) : ℝ))
        ∨ (¬ (minScore < score + Real.sqrt ((len - minLen : ℕ) : ℝ))
            ∧ readerableLoop minLen minScore rest (score + Real.sqrt ((len - minLen : ℕ) : ℝ)))

/-- `is_probably_readerable` from `readerable.rs`, over the trimmed text
lengths of the document's `p, pre, article` elements. -/
def is_probably_readerable (lens : List ℕ) (options : ReaderableOptions) : Prop :=
  if lens.isEmpty then False
  else readerableLoop options.min_content_length options.min_score lens 0

/-- The total score the loop accumulates when it never exits early. -/
noncomputable def readerableScore (minLen : ℕ) (lens : List ℕ) : ℝ :=
  (lens.map (fun len =>
    if len < minLen then (0 : ℝ) else Real.sqrt ((len - minLen : ℕ) : ℝ))).sum

/-! ### `readability.rs`: errors, options, article record and `parse` -/

/-- `ReadabilityError` from `error.rs`. -/
inductive ReadabilityError where
  | ParseError (msg : String)
  | InvalidUrl (url : String)
  | InvalidDocument (msg : String)
  | JsonLdError (msg : String)
  | MaxElementsExceeded (n : ℕ)
  | NoContentFound
  | Other (msg : String)
deriving DecidableEq, Repr

/-- `ReadabilityOptions` from `options.rs` (the `allowed_video_regex` and
`link_density_modifier` fields configure stages outside this embedding and are
omitted). -/
structure ReadabilityOptions where
  debug : Bool := false
  max_elems_to_parse : ℕ := 0
  nb_top_candidates : ℕ := 5
  char_threshold : ℕ := 500
  classes_to_preserve : List String := ["page"]
  keep_classes : Bool := false
  disable_json_ld : Bool := false
deriving DecidableEq, Repr

/-- The `Article` record from `article.rs`. -/
structure Article where
  title : Option String
  content : Option String
  text_content : Option String
  length : ℕ
  excerpt : Option String
  byline : Option String
  dir : Option String
  site_name : Option String
  lang : Option String
  published_time : Option String
  raw_content : Option String
deriving DecidableEq, Repr

/-- `truncate_text` from `readability.rs`: cut to `max_len` characters,
breaking at the last whitespace when possible. -/
def lastWsIdx (l : List Char) : Option ℕ :=
  (l.reverse.findIdx? Char.isWhitespace).map (fun j => l.length - 1 - j)

/-- `truncate_text` from `readability.rs`. -/
def truncate_text (text : String) (maxLen : ℕ) : String :=
  if text.length ≤ maxLen then text
  else
    let tl := text.toList.take maxLen
    match lastWsIdx tl with
    | some i => strTrim (String.mk (tl.take i))
    | none => strTrim (String.mk tl)

/-- `generate_excerpt_from_text` from `readability.rs`: first substantial
paragraph, else the first ~300 characters when long enough. -/
def generate_excerpt_from_text (text : String) : Option String :=
  let cleaned := strTrim text
  if cleaned.isEmpty then none
  else
    match ((paraSplit cleaned.toList []).map String.mk).find? (fun para =>
        let pt := strTrim para
        decide (pt.utf8ByteSize ≥ 80) && !looks_like_bracket_menu pt) with
    | some para => some (truncate_text (strTrim para) 300)
    | none =>
      if looks_like_bracket_menu cleaned then none
      else if cleaned.utf8ByteSize > 40 then some (truncate_text cleaned 300)
      else none

/-- The pipeline stages of `parse` whose implementations live in the modules
missing from `src/` (`content_extractor::grab_article`,
`cleaner::clean_article_content_light`, `post_processor::prep_article`,
`cleaner::clean_article_content`) together with the external `scraper` text
extraction.  Modelled from the spec: each stage is a deterministic function of
its inputs; fallible stages return a result that `parse` must absorb. -/
structure ParseEnv where
  /-- Outcome of `grab_article` on the preprocessed document. -/
  grabResult : Except ReadabilityError (Option String)
  /-- `cleaner::clean_article_content_light`. -/
  lightClean : String → Except ReadabilityError String
  /-- `post_processor::prep_article`. -/
  prepArticle : String → String
  /-- `cleaner::clean_article_content`. -/
  deepClean : String → Except ReadabilityError String
  /-- Plain-text extraction (`Html::parse_fragment` + text collection). -/
  textOf : String → String
  /-- `generate_excerpt_from_html` (runs selector queries on the external
  DOM). -/
  excerptFromHtml : String → Option String
  /-- `dom_utils::get_article_direction` on the original document. -/
  direction : Option String

/-- The `unwrap_or_else` fallback around the light cleaning pass in `parse`:
on error the uncleaned extracted HTML is used. -/
def light_clean_result (env : ParseEnv) (content_html : String) : String :=
  match env.lightClean content_html with
  | .ok h => h
  | .error _ => content_html

/-- The fallback around the deep cleaning pass in `parse`: on error the
prepped (pre-deep-clean) HTML is used. -/
def deep_clean_result (env : ParseEnv) (prepped : String) : String :=
  match env.deepClean prepped with
  | .ok h => h
  | .error _ => prepped

/-- `Readability::parse` from `readability.rs` (lines 162-227): metadata
resolution, content extraction, the two cleaning passes with their fallbacks,
and assembly of the article record.  `length` is set to
`text_content.len()` — the UTF-8 byte count. -/
def Readability.parse (doc : DocModel) (env : ParseEnv)
    (options : ReadabilityOptions) : Option Article :=
  let json_ld := if !options.disable_json_ld then get_json_ld doc.ldScripts else {}
  let metadata := get_article_metadata doc json_ld
  match env.grabResult with
  | .error _ => none
  | .ok none => none
  | .ok (some content_html) =>
    let cleaned_wrapper := light_clean_result env content_html
    let prepped := env.prepArticle cleaned_wrapper
    let cleaned := deep_clean_result env prepped
    let text_content := env.textOf cleaned
    let length := text_content.utf8ByteSize
    let excerpt := metadata.excerpt <|>
      (env.excerptFromHtml cleaned <|> generate_excerpt_from_text text_content)
    some
      { title := metadata.title
        content := some cleaned
        raw_content := some content_html
        text_content := some text_content
        length := length
        excerpt := excerpt
        byline := metadata.byline
        dir := env.direction
        site_name := metadata.site_name
        lang := metadata.lang
        published_time := metadata.published_time }

/-- A constructed `Readability` instance (document parsing by the external
HTML engine is total, so construction only validates the URL). -/
structure ReadabilityInstance where
  html : String
  base_url : Option String
  options : ReadabilityOptions
deriving DecidableEq, Repr

/-- `Readability::new` from `readability.rs` (lines 131-156): the only
fallible step is base-URL validation. -/
def Readability.new (html : String) (url : Option String)
    (options : Option ReadabilityOptions) : Except ReadabilityError ReadabilityInstance :=
  match url with
  | some u =>
    if is_url u then
      .ok { html := html, base_url := some u, options := options.getD {} }
    else .error (.InvalidUrl u)
  | none => .ok { html := html, base_url := none, options := options.getD {} }

/-! ## Supporting lemmas -/

/-- Fold a list of `(key, value)` insertions into a table, left to right. -/
def applyInserts (v : MetaTable) (l : List (String × String)) : MetaTable :=
  l.foldl (fun acc kv => tableInsert acc kv.1 kv.2) v

theorem applyInserts_nil (v : MetaTable) : applyInserts v [] = v := rfl

theorem applyInserts_cons (v : MetaTable) (kv : String × String)
    (l : List (String × String)) :
    applyInserts v (kv :: l) = applyInserts (tableInsert v kv.1 kv.2) l := rfl

theorem applyInserts_append (v : MetaTable) (l₁ l₂ : List (String × String)) :
    applyInserts v (l₁ ++ l₂) = applyInserts (applyInserts v l₁) l₂ := by
  simp [applyInserts, List.foldl_append]

theorem propFold_spec (content : String) :
    ∀ (toks : List String) (v : MetaTable) (b : Bool),
      toks.foldl (propFoldStep content) (v, b)
        = (applyInserts v (propInsertions content toks),
           b || !(propInsertions content toks).isEmpty) := by
  intro toks
  induction toks with
  | nil => intro v b; simp [propInsertions, applyInserts]
  | cons tok rest ih =>
    intro v b
    cases hk : propertyKeyOfToken tok with
    | none =>
      simp only [List.foldl_cons, propFoldStep, hk, propInsertions, List.filterMap_cons]
      exact ih v b
    | some k =>
      simp only [List.foldl_cons, propFoldStep, hk, propInsertions, List.filterMap_cons,
        Option.map_some]
      rw [ih]
      simp [propInsertions, applyInserts]

theorem processMeta_eq (v : MetaTable) (m : MetaElem) :
    processMeta v m = applyInserts v (insertionsOf m) := by
  obtain ⟨nm, prop, content⟩ := m
  cases content with
  | none => rfl
  | some c =>
    by_cases hc : c.isEmpty
    · simp [processMeta, insertionsOf, hc, applyInserts_nil]
    · cases prop with
      | none =>
        simp only [processMeta, insertionsOf, hc, if_neg, Bool.false_eq_true]
        cases nm with
        | none => simp [applyInserts_nil]
        | some n =>
          by_cases hn : name_pattern_matches n
          · simp [hn, applyInserts, tableInsert]
          · simp [hn, applyInserts_nil]
      | some p =>
        simp only [processMeta, insertionsOf, hc, if_neg]
        rw [propFold_spec]
        by_cases hemp : (propInsertions c (splitWhitespace p)).isEmpty
        · rw [List.isEmpty_iff] at hemp
          simp only [hemp, List.isEmpty_nil, Bool.not_true, Bool.false_or,
            Bool.false_eq_true, if_false, applyInserts_nil, Bool.not_false, if_true]
          cases nm with
          | none => simp [applyInserts_nil]
          | some n =>
            by_cases hn : name_pattern_matches n
            · simp [hn, applyInserts, tableInsert]
            · simp [hn, applyInserts_nil]
        · have hemp' : (propInsertions c (splitWhitespace p)).isEmpty = false :=
            Bool.eq_false_iff.mpr hemp
          simp [hemp']

theorem buildMetaValues_eq :
    ∀ (metas : List MetaElem) (v : MetaTable),
      metas.foldl processMeta v = applyInserts v (metas.flatMap insertionsOf) := by
  intro metas
  induction metas with
  | nil => intro v; rfl
  | cons m rest ih =>
    intro v
    simp only [List.foldl_cons, List.flatMap_cons, applyInserts_append]
    rw [ih, processMeta_eq]

theorem applyInserts_lookup :
    ∀ (l : List (String × String)) (v : MetaTable) (k : String),
      applyInserts v l k
        = match l.reverse.find? (fun p => p.1 == k) with
          | some p => some p.2
          | none => v k := by
  intro l
  induction l with
  | nil => intro v k; rfl
  | cons kv rest ih =>
    intro v k
    rw [applyInserts_cons, ih]
    simp only [List.reverse_cons, List.find?_append]
    cases h : rest.reverse.find? (fun p => p.1 == k) with
    | some p => simp [h]
    | none =>
      simp only [h, Option.orElse_none, Option.none_orElse, List.find?_singleton,
        List.find?_cons, List.find?_nil]
      by_cases hk : kv.1 = k
      · simp [hk, tableInsert]
      · have hk' : (kv.1 == k) = false := by simp [hk]
        have hk'' : ¬ (k = kv.1) := fun h2 => hk h2.symm
        simp [hk', tableInsert, hk'']

/-- `apply_site_redundancy` never changes the title. -/
theorem apply_site_redundancy_title (md : Metadata) :
    (apply_site_redundancy md).title = md.title := by
  unfold apply_site_redundancy
  split
  · split <;> rfl
  · rfl

/-- `apply_site_redundancy` never changes the excerpt. -/
theorem apply_site_redundancy_excerpt (md : Metadata) :
    (apply_site_redundancy md).excerpt = md.excerpt := by
  unfold apply_site_redundancy
  split
  · split <;> rfl
  · rfl

/-- `apply_site_redundancy` never changes the site name. -/
theorem apply_site_redundancy_site_name (md : Metadata) :
    (apply_site_redundancy md).site_name = md.site_name := by
  unfold apply_site_redundancy
  split
  · split <;> rfl
  · rfl

/-- `apply_site_redundancy` never changes the publication time. -/
theorem apply_site_redundancy_published_time (md : Metadata) :
    (apply_site_redundancy md).published_time = md.published_time := by
  unfold apply_site_redundancy
  split
  · split <;> rfl
  · rfl

/-- The title of the full resolution is the title of the core stage. -/
theorem get_article_metadata_title (doc : DocModel) (jl : Metadata) :
    (get_article_metadata doc jl).title = (resolve_metadata_core doc jl).title := by
  unfold get_article_metadata
  simp [apply_site_redundancy_title]

/-- The excerpt of the full resolution is the excerpt of the core stage. -/
theorem get_article_metadata_excerpt (doc : DocModel) (jl : Metadata) :
    (get_article_metadata doc jl).excerpt = (resolve_metadata_core doc jl).excerpt := by
  unfold get_article_metadata
  simp [apply_site_redundancy_excerpt]

/-- The site name of the full resolution is the site name of the core stage. -/
theorem get_article_metadata_site_name (doc : DocModel) (jl : Metadata) :
    (get_article_metadata doc jl).site_name = (resolve_metadata_core doc jl).site_name := by
  unfold get_article_metadata
  simp [apply_site_redundancy_site_name]

/-- The publication time of the full resolution is the unescaped publication
time of the core stage. -/
theorem get_article_metadata_published_time (doc : DocModel) (jl : Metadata) :
    (get_article_metadata doc jl).published_time
      = (resolve_metadata_core doc jl).published_time.map unescape_html_entities := by
  unfold get_article_metadata
  simp [apply_site_redundancy_published_time]

/-- The core stage's title, spelt out. -/
theorem resolve_metadata_core_title (doc : DocModel) (jl : Metadata) :
    (resolve_metadata_core doc jl).title
      = ((resolve_meta_title (buildMetaValues doc.metas) jl <|> doc.docTitle)
          <|> some "").map unescape_html_entities := rfl

/-- The core stage's excerpt, spelt out. -/
theorem resolve_metadata_core_excerpt (doc : DocModel) (jl : Metadata) :
    (resolve_metadata_core doc jl).excerpt
      = ((resolve_meta_excerpt (buildMetaValues doc.metas) jl).map
          unescape_html_entities).bind excerpt_postprocess := rfl

/-- The core stage's site name, spelt out. -/
theorem resolve_metadata_core_site_name (doc : DocModel) (jl : Metadata) :
    (resolve_metadata_core doc jl).site_name
      = (jl.site_name <|> buildMetaValues doc.metas "og:site_name").map
          unescape_html_entities := rfl

/-- The core stage's publication time, spelt out. -/
theorem resolve_metadata_core_published_time (doc : DocModel) (jl : Metadata) :
    (resolve_metadata_core doc jl).published_time
      = (jl.published_time <|> (buildMetaValues doc.metas "article:published_time"
          <|> buildMetaValues doc.metas "parsely-pub-date")) := rfl

/-- The resolved title is always present: the code substitutes `Some("")`
before unescaping. -/
theorem get_article_metadata_title_isSome (doc : DocModel) (jl : Metadata) :
    (get_article_metadata doc jl).title.isSome = true := by
  rw [get_article_metadata_title, resolve_metadata_core_title]
  cases h : (resolve_meta_title (buildMetaValues doc.metas) jl <|> doc.docTitle) <;>
    simp [h]

/-! ## Concrete instances used by the claims -/

/-- A document with no metadata sources at all. -/
def emptyDoc : DocModel :=
  { metas := [], ldScripts := [], domByline := none, capsStandfirst := none,
    docTitle := none, lang := none }

/-- A pipeline environment whose text extraction yields the four-character,
five-byte string "café". -/
def cafeEnv : ParseEnv :=
  { grabResult := .ok (some "h"), lightClean := fun s => .ok s, prepArticle := id,
    deepClean := fun s => .ok s, textOf := fun _ => "café",
    excerptFromHtml := fun _ => none, direction := none }

/-- A pipeline environment whose content grab fails. -/
def grabErrorEnv : ParseEnv :=
  { grabResult := .error .NoContentFound, lightClean := fun s => .ok s,
    prepArticle := id, deepClean := fun s => .ok s, textOf := fun s => s,
    excerptFromHtml := fun _ => none, direction := none }

/-- Two `<meta property="og:title">` elements with different contents. -/
def dupTitleMetas : List MetaElem :=
  [{ name := none, property := some "og:title", content := some "First" },
   { name := none, property := some "og:title", content := some "Second" }]

/-- The JSON-LD block of the structured-data priority scenario. -/
def ldC5 : Json :=
  .obj [("@context", .str "https://schema.org"), ("@type", .str "Article"),
        ("headline", .str "Test Article"),
        ("author", .obj [("name", .str "John Doe")]),
        ("description", .str "Test description")]

/-- A document whose only metadata source is the `ldC5` JSON-LD block. -/
def jsonLdDoc : DocModel :=
  { metas := [], ldScripts := [some ldC5], domByline := none, capsStandfirst := none,
    docTitle := none, lang := none }

/-- A document with meta author "CAIRO" and the DOM byline candidate
"By Erin Cunningham" found inside a byline-tagged element. -/
def cairoDoc : DocModel :=
  { metas := [{ name := some "author", property := none, content := some "CAIRO" }],
    ldScripts := [],
    domByline := some { text := "By Erin Cunningham", confidence := .High },
    capsStandfirst := none, docTitle := none, lang := none }

/-- A document with site name "SIMPLYFOUND.COM | BY: Joe Wee" and the DOM
byline candidate "Joe Wee". -/
def joeWeeDoc : DocModel :=
  { metas := [{ name := none, property := some "og:site_name",
                content := some "SIMPLYFOUND.COM | BY: Joe Wee" }],
    ldScripts := [],
    domByline := some { text := "Joe Wee", confidence := .Medium },
    capsStandfirst := none, docTitle := none, lang := none }

/-- A JSON-LD block whose "name" equals the publisher's name and which has no
"headline". -/
def ldNamePublisher : Json :=
  .obj [("@context", .str "https://schema.org"), ("@type", .str "Article"),
        ("name", .str "Acme"), ("publisher", .obj [("name", .str "Acme")])]

/-! ## Claims -/

/-- Claim C1 (code_bug): the spec and the `Article` documentation promise that
`length` equals the character count (Unicode scalar values) of
`text_content`, but `parse` sets `length = text_content.len()`, the UTF-8 byte
count.  At a document whose extracted text is "café" the stored length is 5
while the character count is 4. -/
theorem claim_C1_length_is_byte_count :
    (Readability.parse emptyDoc cafeEnv {}).map Article.length = some 5
      ∧ (Readability.parse emptyDoc cafeEnv {}).bind Article.text_content = some "café"
      ∧ "café".length = 4
      ∧ (5 : ℕ) ≠ 4 := by
  refine ⟨rfl, rfl, rfl, by decide⟩

/-- Claim C2, counterexample: with two `<meta property="og:title">` elements
("First" then "Second" in document order), the table holds "Second" — the
*last* matching element — while first-match-wins would give "First". -/
theorem claim_C2_counterexample_last_value_wins :
    buildMetaValues dupTitleMetas "og:title" = some "Second"
      ∧ metaTableFirstMatch dupTitleMetas "og:title" = some "First" := by
  refine ⟨by decide, by decide⟩

/-- Claim C2, amended: `HashMap::insert` replaces earlier values, so for every
key the table holds the value of the *last* matching element in document
order. -/
theorem claim_C2_table_is_last_match_wins :
    ∀ (metas : List MetaElem) (k : String),
      buildMetaValues metas k = metaTableLastMatch metas k := by
  intro metas k
  unfold buildMetaValues metaTableLastMatch
  rw [buildMetaValues_eq, applyInserts_lookup]
  cases h : (metas.flatMap insertionsOf).reverse.find? (fun p => p.1 == k) <;>
    simp [h, emptyTable]

/-- Claim C4 (determinism): the embedded pipeline is a pure function of the
document, the stage outcomes and the options — two runs over equal inputs
yield equal article records. -/
theorem claim_C4_extraction_deterministic :
    ∀ (d₁ d₂ : DocModel) (e₁ e₂ : ParseEnv) (o₁ o₂ : ReadabilityOptions),
      d₁ = d₂ → e₁ = e₂ → o₁ = o₂ →
      Readability.parse d₁ e₁ o₁ = Readability.parse d₂ e₂ o₂ := by
  intro d₁ d₂ e₁ e₂ o₁ o₂ h₁ h₂ h₃
  rw [h₁, h₂, h₃]

/-- Witness for claim C4 at a concrete input. -/
theorem claim_C4_witness :
    Readability.parse emptyDoc cafeEnv {} = Readability.parse emptyDoc cafeEnv {} :=
  claim_C4_extraction_deterministic emptyDoc emptyDoc cafeEnv cafeEnv {} {} rfl rfl rfl

/-- Claim C5: structured-data values win over meta-tag values for every
field, and the spec's JSON-LD scenario resolves to its three values. -/
theorem claim_C5_structured_data_priority :
    ((get_article_metadata jsonLdDoc (get_json_ld jsonLdDoc.ldScripts)).title
        = some "Test Article"
      ∧ (get_article_metadata jsonLdDoc (get_json_ld jsonLdDoc.ldScripts)).byline
        = some "John Doe"
      ∧ (get_article_metadata jsonLdDoc (get_json_ld jsonLdDoc.ldScripts)).excerpt
        = some "Test description")
    ∧ (∀ (doc : DocModel) (jl : Metadata) (t : String), jl.title = some t →
        (get_article_metadata doc jl).title = some (unescape_html_entities t))
    ∧ (∀ (doc : DocModel) (jl : Metadata) (e : String), jl.excerpt = some e →
        (get_article_metadata doc jl).excerpt
          = excerpt_postprocess (unescape_html_entities e))
    ∧ (∀ (doc : DocModel) (jl : Metadata) (s : String), jl.site_name = some s →
        (get_article_metadata doc jl).site_name = some (unescape_html_entities s))
    ∧ (∀ (doc : DocModel) (jl : Metadata) (p : String), jl.published_time = some p →
        (get_article_metadata doc jl).published_time
          = some (unescape_html_entities p))
    ∧ (∀ (values : MetaTable) (jl : Metadata) (b : String), jl.byline = some b →
        resolve_meta_byline values jl = some b) := by
  refine ⟨⟨rfl, rfl, rfl⟩, ?_, ?_, ?_, ?_, ?_⟩
  · intro doc jl t h
    rw [get_article_metadata_title, resolve_metadata_core_title]
    simp [resolve_meta_title, h]
  · intro doc jl e h
    rw [get_article_metadata_excerpt, resolve_metadata_core_excerpt]
    simp [resolve_meta_excerpt, h]
  · intro doc jl s h
    rw [get_article_metadata_site_name, resolve_metadata_core_site_name]
    simp [h]
  · intro doc jl p h
    rw [get_article_metadata_published_time, resolve_metadata_core_published_time]
    simp [h]
  · intro values jl b h
    simp [resolve_meta_byline, h]

/-- Witness for claim C5's universal parts at concrete inputs. -/
theorem claim_C5_witness :
    (get_article_metadata emptyDoc { title := some "T" }).title
        = some (unescape_html_entities "T")
      ∧ resolve_meta_byline emptyTable { byline := some "B" } = some "B" :=
  ⟨claim_C5_structured_data_priority.2.1 emptyDoc { title := some "T" } "T" rfl,
   claim_C5_structured_data_priority.2.2.2.2.2 emptyTable { byline := some "B" } "B" rfl⟩

/-- Claim C6, counterexample: the predicate's first guard returns `false`
whenever the DOM candidate equals the existing byline up to ASCII case, even
for a High-confidence all-caps DOM author against a non-all-caps existing
value — so the "whenever" of the claim fails at existing "John Doe", DOM
candidate "JOHN DOE". -/
theorem claim_C6_counterexample_case_equal_caps :
    looks_like_caps_author "JOHN DOE" = true
      ∧ looks_like_caps_author "John Doe" = false
      ∧ should_prefer_dom_byline "John Doe" "JOHN DOE" DomBylineConfidence.High = false := by
  refine ⟨by decide, by decide, by decide⟩

/-- Helper for claim C6: any of the three override signals forces the
predicate to `true`, provided the candidate differs from the existing value
up to ASCII case. -/
theorem should_prefer_dom_byline_of_signal :
    ∀ (existing dom : String) (conf : DomBylineConfidence),
      eqIgnoreAsciiCase (strTrim dom) (strTrim existing) = false →
      ((looks_like_org_credit (strTrim existing) && !looks_like_org_credit (strTrim dom))
        || ((looks_like_dateline (strTrim existing) && !looks_like_dateline (strTrim dom))
          || (decide (conf = DomBylineConfidence.High)
                && looks_like_caps_author (strTrim dom)
                && !looks_like_caps_author (strTrim existing)))) = true →
      should_prefer_dom_byline existing dom conf = true := by
  intro existing dom conf h1 h2
  unfold should_prefer_dom_byline
  simp only [h1, Bool.false_eq_true, if_false]
  by_cases hA : (looks_like_org_credit (strTrim existing)
      && !looks_like_org_credit (strTrim dom)) = true
  · simp [hA]
  · have hA' : (looks_like_org_credit (strTrim existing)
        && !looks_like_org_credit (strTrim dom)) = false := Bool.eq_false_iff.mpr hA
    by_cases hB : (looks_like_dateline (strTrim existing)
        && !looks_like_dateline (strTrim dom)) = true
    · simp [hA', hB]
    · have hB' : (looks_like_dateline (strTrim existing)
          && !looks_like_dateline (strTrim dom)) = false := Bool.eq_false_iff.mpr hB
      have hC : (decide (conf = DomBylineConfidence.High)
          && looks_like_caps_author (strTrim dom)
          && !looks_like_caps_author (strTrim existing)) = true := by
        simp only [Bool.or_eq_true] at h2
        rcases h2 with h | h | h
        · exact absurd h hA
        · exact absurd h hB
        · exact h
      simp [hA', hB', hC]

/-- Claim C6, amended: the spec's concrete scenario holds (meta author
"CAIRO" is overridden by the DOM byline "By Erin Cunningham"), and each
override signal forces the predicate to `true` *provided* the DOM candidate
is not equal to the existing value up to ASCII case. -/
theorem claim_C6_amended_byline_override :
    ((get_article_metadata cairoDoc {}).byline = some "By Erin Cunningham")
      ∧ (∀ (existing dom : String) (conf : DomBylineConfidence),
          eqIgnoreAsciiCase (strTrim dom) (strTrim existing) = false →
          ((looks_like_org_credit (strTrim existing)
              && !looks_like_org_credit (strTrim dom))
            || ((looks_like_dateline (strTrim existing)
                && !looks_like_dateline (strTrim dom))
              || (decide (conf = DomBylineConfidence.High)
                    && looks_like_caps_author (strTrim dom)
                    && !looks_like_caps_author (strTrim existing)))) = true →
          should_prefer_dom_byline existing dom conf = true) := by
  exact ⟨rfl, should_prefer_dom_byline_of_signal⟩

/-- Witness for claim C6's universal part at the spec's dateline scenario. -/
theorem claim_C6_witness :
    should_prefer_dom_byline "CAIRO" "By Erin Cunningham" DomBylineConfidence.High = true :=
  claim_C6_amended_byline_override.2 "CAIRO" "By Erin Cunningham"
    DomBylineConfidence.High (by decide) (by decide)

/-- Claim C7: a resolved byline that is textually redundant with the resolved
site name is dropped; in particular the "SIMPLYFOUND.COM | BY: Joe Wee" /
"Joe Wee" scenario resolves to no byline. -/
theorem claim_C7_redundant_byline_suppressed :
    ((get_article_metadata joeWeeDoc {}).byline = none)
      ∧ ((resolve_metadata_core joeWeeDoc {}).byline = some "Joe Wee")
      ∧ ((resolve_metadata_core joeWeeDoc {}).site_name
          = some "SIMPLYFOUND.COM | BY: Joe Wee")
      ∧ (∀ (doc : DocModel) (jl : Metadata) (b s : String),
          (resolve_metadata_core doc jl).byline = some b →
          (resolve_metadata_core doc jl).site_name = some s →
          is_byline_redundant_with_site_name b s = true →
          (get_article_metadata doc jl).byline = none) := by
  refine ⟨rfl, rfl, rfl, ?_⟩
  intro doc jl b s hb hs hr
  unfold get_article_metadata apply_site_redundancy
  simp only [hb, hs, hr, if_true]

/-- Witness for claim C7's universal part at the spec's scenario. -/
theorem claim_C7_witness :
    (get_article_metadata joeWeeDoc {}).byline = none :=
  claim_C7_redundant_byline_suppressed.2.2.2 joeWeeDoc {} "Joe Wee"
    "SIMPLYFOUND.COM | BY: Joe Wee" rfl rfl (by decide)

/-- Claim C8: `parse` never surfaces an error — a failed content grab yields
`none`, a failed deep clean falls back to the uncleaned (prepped) HTML inside
a `some` record, and the only typed error the public API produces is
`InvalidUrl` at construction time. -/
theorem claim_C8_parse_never_propagates_errors :
    ∀ (doc : DocModel) (env : ParseEnv) (opts : ReadabilityOptions),
      (∀ e, env.grabResult = .error e → Readability.parse doc env opts = none)
      ∧ (env.grabResult = .ok none → Readability.parse doc env opts = none)
      ∧ (∀ c, env.grabResult = .ok (some c) →
          (Readability.parse doc env opts).isSome = true
          ∧ (∀ err,
              env.deepClean (env.prepArticle (light_clean_result env c)) = .error err →
              (Readability.parse doc env opts).bind Article.content
                = some (env.prepArticle (light_clean_result env c))))
      ∧ (∀ (html : String) (url : Option String) (o : Option ReadabilityOptions) err,
          Readability.new html url o = .error err →
          ∃ u, err = ReadabilityError.InvalidUrl u ∧ url = some u ∧ is_url u = false) := by
  intro doc env opts
  refine ⟨?_, ?_, ?_, ?_⟩
  · intro e he
    simp [Readability.parse, he]
  · intro hn
    simp [Readability.parse, hn]
  · intro c hc
    constructor
    · simp [Readability.parse, hc]
    · intro err herr
      simp [Readability.parse, hc, deep_clean_result, herr]
  · intro html url o err hne
    cases url with
    | none => simp [Readability.new] at hne
    | some u =>
      by_cases hu : is_url u = true
      · simp [Readability.new, hu] at hne
      · have hu' : is_url u = false := Bool.eq_false_iff.mpr hu
        simp only [Readability.new, hu', Bool.false_eq_true, if_false,
          Except.error.injEq] at hne
        exact ⟨u, hne.symm, rfl, hu'⟩

/-- Witness for claim C8 at concrete inputs: a failed grab produces `none`,
and a bad base URL produces `InvalidUrl`. -/
theorem claim_C8_witness :
    Readability.parse emptyDoc grabErrorEnv {} = none
      ∧ (∃ u, ReadabilityError.InvalidUrl "not a url" = ReadabilityError.InvalidUrl u
          ∧ (some "not a url" : Option String) = some u ∧ is_url u = false) :=
  ⟨(claim_C8_parse_never_propagates_errors emptyDoc grabErrorEnv {}).1
      ReadabilityError.NoContentFound rfl,
   (claim_C8_parse_never_propagates_errors emptyDoc grabErrorEnv {}).2.2.2
      "x" (some "not a url") none (ReadabilityError.InvalidUrl "not a url") rfl⟩

/-- Claim C9, counterexample: when the JSON-LD "name" equals the publisher
name and there is no "headline", the code extracts *no* title, although the
claim's "when only one of the two fields is present, that one is used" calls
for "name" to be used. -/
theorem claim_C9_counterexample_name_equals_publisher :
    (get_json_ld [some ldNamePublisher]).title = none
      ∧ jsonLdTitleUpdate none (some "Acme") none (some "Acme") = none := by
  refine ⟨rfl, rfl⟩

/-- Claim C9, amended: with no previous title, "name" colliding with the
publisher name defers to "headline"; differing values let "name" win; a
missing "name" falls back to "headline"; a missing "headline" leaves "name"
in charge — except that a publisher-colliding "name" with no "headline"
extracts nothing. -/
theorem claim_C9_amended_title_selection :
    (∀ n p h, strTrim n = strTrim p →
        jsonLdTitleUpdate none (some n) (some h) (some p) = some (strTrim h))
      ∧ (∀ n p hl, strTrim n ≠ strTrim p →
          jsonLdTitleUpdate none (some n) hl (some p) = some (strTrim n))
      ∧ (∀ n hl, jsonLdTitleUpdate none (some n) hl none = some (strTrim n))
      ∧ (∀ h pb, jsonLdTitleUpdate none none (some h) pb = some (strTrim h))
      ∧ (∀ n p, strTrim n = strTrim p →
          jsonLdTitleUpdate none (some n) none (some p) = none) := by
  refine ⟨?_, ?_, ?_, ?_, ?_⟩
  · intro n p h heq
    simp [jsonLdTitleUpdate, heq]
  · intro n p hl hne
    cases hl <;> simp [jsonLdTitleUpdate, hne]
  · intro n hl
    cases hl <;> simp [jsonLdTitleUpdate]
  · intro h pb
    cases pb <;> simp [jsonLdTitleUpdate]
  · intro n p heq
    simp [jsonLdTitleUpdate, heq]

/-- Witness for claim C9's amended clauses at concrete inputs. -/
theorem claim_C9_witness :
    jsonLdTitleUpdate none (some "Acme") (some "Real Headline") (some "Acme")
        = some (strTrim "Real Headline")
      ∧ jsonLdTitleUpdate none (some "N") none (some "P") = some (strTrim "N")
      ∧ jsonLdTitleUpdate none (some "N") none none = some (strTrim "N")
      ∧ jsonLdTitleUpdate none none (some "H") (some "P") = some (strTrim "H")
      ∧ jsonLdTitleUpdate none (some "Acme") none (some "Acme") = none :=
  ⟨claim_C9_amended_title_selection.1 "Acme" "Acme" "Real Headline" rfl,
   claim_C9_amended_title_selection.2.1 "N" "P" none (by decide),
   claim_C9_amended_title_selection.2.2.1 "N" none,
   claim_C9_amended_title_selection.2.2.2.1 "H" (some "P"),
   claim_C9_amended_title_selection.2.2.2.2 "Acme" "Acme" rfl⟩

/-- Claim C10: whenever `parse` returns a record, its title is present — when
every title source is missing the resolver substitutes the empty string. -/
theorem claim_C10_successful_title_is_some :
    ∀ (doc : DocModel) (env : ParseEnv) (opts : ReadabilityOptions) (a : Article),
      Readability.parse doc env opts = some a → a.title.isSome = true := by
  intro doc env opts a h
  cases hg : env.grabResult with
  | error e => simp [Readability.parse, hg] at h
  | ok oc =>
    cases oc with
    | none => simp [Readability.parse, hg] at h
    | some c =>
      simp only [Readability.parse, hg, Option.some.injEq] at h
      subst h
      exact get_article_metadata_title_isSome doc _

/-- Witness for claim C10 at a concrete successful parse. -/
theorem claim_C10_witness :
    ∃ a, Readability.parse emptyDoc cafeEnv {} = some a ∧ a.title.isSome = true := by
  have hs : (Readability.parse emptyDoc cafeEnv {}).isSome = true := rfl
  exact ⟨(Readability.parse emptyDoc cafeEnv {}).get hs, (Option.some_get hs).symm,
    claim_C10_successful_title_is_some emptyDoc cafeEnv {} _ (Option.some_get hs).symm⟩

/-! ### Lemmas on the pre-flight scoring loop (claim C3) -/

theorem readerableScore_nil (minLen : ℕ) : readerableScore minLen [] = 0 := by
  simp [readerableScore]

theorem readerableScore_cons (minLen len : ℕ) (rest : List ℕ) :
    readerableScore minLen (len :: rest)
      = (if len < minLen then (0 : ℝ) else Real.sqrt ((len - minLen : ℕ) : ℝ))
        + readerableScore minLen rest := by
  simp [readerableScore]

theorem readerableScore_append (minLen : ℕ) (l₁ l₂ : List ℕ) :
    readerableScore minLen (l₁ ++ l₂)
      = readerableScore minLen l₁ + readerableScore minLen l₂ := by
  simp [readerableScore]

theorem readerableScore_nonneg (minLen : ℕ) (lens : List ℕ) :
    0 ≤ readerableScore minLen lens := by
  unfold readerableScore
  apply List.sum_nonneg
  intro x hx
  obtain ⟨len, _, rfl⟩ := List.mem_map.mp hx
  split
  · exact le_refl 0
  · exact Real.sqrt_nonneg _

/-- If the total accumulated score clears the threshold, the early-exit loop
reports success. -/
theorem readerableLoop_of_total (minLen : ℕ) (minScore : ℝ) :
    ∀ (lens : List ℕ) (score : ℝ), score ≤ minScore →
      minScore < score + readerableScore minLen lens →
      readerableLoop minLen minScore lens score := by
  intro lens
  induction lens with
  | nil =>
    intro score hle hlt
    rw [readerableScore_nil, add_zero] at hlt
    exact absurd hlt (not_lt.mpr hle)
  | cons len rest ih =>
    intro score hle hlt
    rw [readerableScore_cons] at hlt
    by_cases hlen : len < minLen
    · simp only [readerableLoop, if_pos hlen]
      rw [if_pos hlen, zero_add] at hlt
      exact ih score hle hlt
    · simp only [readerableLoop, if_neg hlen]
      rw [if_neg hlen] at hlt
      by_cases hs : minScore < score + Real.sqrt ((len - minLen : ℕ) : ℝ)
      · exact Or.inl hs
      · refine Or.inr ⟨hs, ih _ (not_lt.mp hs) ?_⟩
        linarith

/-- When every block is below the minimum length, the loop never fires. -/
theorem readerableLoop_not_of_all_short (minLen : ℕ) (minScore : ℝ) :
    ∀ (lens : List ℕ) (score : ℝ), (∀ l ∈ lens, l < minLen) →
      ¬ readerableLoop minLen minScore lens score := by
  intro lens
  induction lens with
  | nil => intro score _; simp [readerableLoop]
  | cons len rest ih =>
    intro score hall
    have h1 : len < minLen := hall len (List.mem_cons_self _ _)
    simp only [readerableLoop, if_pos h1]
    exact ih score (fun l hl => hall l (List.mem_cons_of_mem _ hl))

/-- A block of at least 241 characters contributes strictly more than 10 to
the default-threshold score. -/
theorem contribution_gt_ten {a : ℕ} (ha : 241 ≤ a) :
    (10 : ℝ) < (if a < 140 then (0 : ℝ) else Real.sqrt ((a - 140 : ℕ) : ℝ)) := by
  have hlt : ¬ a < 140 := by omega
  rw [if_neg hlt]
  have h101 : (101 : ℝ) ≤ ((a - 140 : ℕ) : ℝ) := by
    have : (101 : ℕ) ≤ a - 140 := by omega
    exact_mod_cast this
  have h10 : (10 : ℝ) < Real.sqrt 101 :=
    Real.lt_sqrt_of_sq_lt (by norm_num)
  exact lt_of_lt_of_le h10 (Real.sqrt_le_sqrt h101)

/-- Claim C3, counterexample: two paragraphs of 141 characters each *exceed*
140 characters, yet the accumulated score is `sqrt 1 + sqrt 1 = 2`, far below
the default minimum score of 20 — the check reports `false`. -/
theorem claim_C3_counterexample_two_paragraphs :
    (140 < 141)
      ∧ ¬ is_probably_readerable [141, 141] defaultReaderableOptions := by
  refine ⟨by norm_num, ?_⟩
  intro h
  have h141 : ¬ (141 < 140) := by omega
  have e1 : ((141 - 140 : ℕ) : ℝ) = 1 := by norm_num
  simp only [is_probably_readerable, defaultReaderableOptions, List.isEmpty_cons,
    Bool.false_eq_true, if_false, readerableLoop, if_neg h141, e1,
    Real.sqrt_one] at h
  norm_num at h

/-- Claim C3, amended: a document all of whose scored blocks are shorter than
140 characters (in particular one whose only paragraph has 5 characters) is
rejected, and a document containing two paragraphs of at least 241 characters
each (so that the two contributions `sqrt(len-140)` alone exceed the default
minimum score of 20) is accepted; merely exceeding 140 characters is not
enough. -/
theorem claim_C3_amended_quick_check_boundary :
    (∀ lens : List ℕ, (∀ l ∈ lens, l < 140) →
        ¬ is_probably_readerable lens defaultReaderableOptions)
      ∧ (∀ (pre mid post : List ℕ) (a b : ℕ), 241 ≤ a → 241 ≤ b →
          is_probably_readerable (pre ++ a :: (mid ++ b :: post))
            defaultReaderableOptions) := by
  constructor
  · intro lens hall
    cases lens with
    | nil => simp [is_probably_readerable]
    | cons x xs =>
      simp only [is_probably_readerable, defaultReaderableOptions,
        List.isEmpty_cons, Bool.false_eq_true, if_false]
      exact readerableLoop_not_of_all_short 140 20 (x :: xs) 0 hall
  · intro pre mid post a b ha hb
    have hne : (pre ++ a :: (mid ++ b :: post)).isEmpty = false := by simp
    simp only [is_probably_readerable, defaultReaderableOptions, hne,
      Bool.false_eq_true, if_false]
    apply readerableLoop_of_total 140 20 _ 0 (by norm_num)
    have hsplit : readerableScore 140 (pre ++ a :: (mid ++ b :: post))
        = readerableScore 140 pre
          + ((if a < 140 then (0 : ℝ) else Real.sqrt ((a - 140 : ℕ) : ℝ))
            + (readerableScore 140 mid
              + ((if b < 140 then (0 : ℝ) else Real.sqrt ((b - 140 : ℕ) : ℝ))
                + readerableScore 140 post))) := by
      rw [readerableScore_append, readerableScore_cons, readerableScore_append,
        readerableScore_cons]
    rw [hsplit]
    have hca := contribution_gt_ten ha
    have hcb := contribution_gt_ten hb
    have h1 := readerableScore_nonneg 140 pre
    have h2 := readerableScore_nonneg 140 mid
    have h3 := readerableScore_nonneg 140 post
    linarith

/-- Witness for claim C3's amended parts at concrete documents. -/
theorem claim_C3_amended_witness :
    ¬ is_probably_readerable [5] defaultReaderableOptions
      ∧ is_probably_readerable [241, 241] defaultReaderableOptions :=
  ⟨claim_C3_amended_quick_check_boundary.1 [5]
      (by intro l hl; simp at hl; omega),
   claim_C3_amended_quick_check_boundary.2 [] [] [] 241 241 (le_refl 241) (le_refl 241)⟩

end Readabilityrs
